import Mathlib

/-!
A verification development for the image-processing core of
Image_Processing.py: pixel buffers, the convolution engine, the concrete
transforms (grayscale, inversion, blur, crop, rotate), the undo history
and the filter catalog tree.  numpy float64 arithmetic is modelled
exactly by rational numbers; uint8 stores reduce modulo 256.
-/

namespace ImageProc

/-- Element type of the in-memory numpy array: the loaded RGB image is
uint8; np.dot with the float luma weights yields a float64 array. -/
inductive Dtype where
  | u8
  | f64
deriving DecidableEq

/-- self.image_array: a height x width x 3 numpy array.  data is a total
function; only indices i < height, j < width are meaningful. -/
@[ext]
structure PixelBuffer where
  height : ℕ
  width : ℕ
  dtype : Dtype
  data : ℕ → ℕ → Fin 3 → ℚ

/-- C-style conversion of a float to uint8, as performed when a float value
is assigned into a uint8 numpy array: truncation, no clamping; modelled as
wrapping modulo 256 (exact for values in the range 0 to 255, the only
range the shipped kernels produce). -/
def castU8 (q : ℚ) : ℕ := (⌊q⌋).toNat % 256

/-- Assignment of a float value into a numpy array of the given dtype. -/
def store : Dtype → ℚ → ℚ
  | Dtype.u8, q => (castU8 q : ℚ)
  | Dtype.f64, q => q

/-- A convolution kernel; kernel.shape = (rows, cols). -/
structure Kernel where
  rows : ℕ
  cols : ℕ
  w : ℕ → ℕ → ℚ

/-- Source row or column index read by the edge-replicating pad
(np.pad with mode edge) at padded index i, for an axis of length n
padded by p on each side. -/
def padIdx (p n i : ℕ) : ℕ :=
  if i < p then 0 else if i - p < n then i - p else n - 1

/-- padded[i, j, c] of the array padded by ph rows and pw columns with
edge replication. -/
def paddedAt (B : PixelBuffer) (ph pw i j : ℕ) (c : Fin 3) : ℚ :=
  B.data (padIdx ph B.height i) (padIdx pw B.width j) c

/-- np.sum(region * kernel[:, :, None], axis=(0, 1)): the weighted sum for
the window whose top-left corner in the padded array is (i, j). -/
def convSum (B : PixelBuffer) (k : Kernel) (i j : ℕ) (c : Fin 3) : ℚ :=
  Finset.sum (Finset.range k.rows) fun di =>
    Finset.sum (Finset.range k.cols) fun dj =>
      paddedAt B (k.rows / 2) (k.cols / 2) (i + di) (j + dj) c * k.w di dj

/-- apply_filter on the current buffer: filtered = np.zeros_like(...) has
the input dtype, so each assignment filtered[i, j] = pixel converts per
that dtype; dimensions are preserved. -/
def apply_filter (k : Kernel) (B : PixelBuffer) : PixelBuffer :=
  { height := B.height, width := B.width, dtype := B.dtype,
    data := fun i j c => store B.dtype (convSum B k i j c) }

/-- np.ones((3, 3)) / 9, the blur kernel. -/
def boxKernel : Kernel :=
  { rows := 3, cols := 3, w := fun _ _ => 1 / 9 }

/-- apply_blur: apply_filter with the box kernel. -/
def apply_blur (B : PixelBuffer) : PixelBuffer :=
  apply_filter boxKernel B

/-- The grayscale value np.dot(image[..., :3], [0.2989, 0.5870, 0.1140])
at pixel (i, j), with the decimal weights taken exactly. -/
def grayAt (B : PixelBuffer) (i j : ℕ) : ℚ :=
  2989 / 10000 * B.data i j 0 + 5870 / 10000 * B.data i j 1 +
    1140 / 10000 * B.data i j 2

/-- apply_grayscale result buffer: np.stack((gray,)*3, axis=-1); np.dot
produces a float64 array and it is stored without a uint8 cast. -/
def grayscale (B : PixelBuffer) : PixelBuffer :=
  { height := B.height, width := B.width, dtype := Dtype.f64,
    data := fun i j _ => grayAt B i j }

/-- apply_inversion result buffer: result = 255 - self.image_array,
elementwise, dtype preserved. -/
def inversion (B : PixelBuffer) : PixelBuffer :=
  { height := B.height, width := B.width, dtype := B.dtype,
    data := fun i j c => 255 - B.data i j c }

/-- self.image_array[top:bottom, left:right] for validated coordinates. -/
def cropBuf (left top right bottom : ℤ) (B : PixelBuffer) : PixelBuffer :=
  { height := (bottom - top).toNat, width := (right - left).toNat,
    dtype := B.dtype,
    data := fun i j c => B.data (top.toNat + i) (left.toNat + j) c }

/-- FilterHistory.history, most recent snapshot first; np.copy is the
identity on immutable values. -/
abbrev FilterHistory := List PixelBuffer

/-- FilterHistory.push. -/
def FilterHistory.push (h : FilterHistory) (image : PixelBuffer) :
    FilterHistory :=
  image :: h

/-- FilterHistory.pop: the popped snapshot, if any, and the remainder. -/
def FilterHistory.pop (h : FilterHistory) :
    Option PixelBuffer × FilterHistory :=
  match h with
  | [] => (none, [])
  | b :: rest => (some b, rest)

/-- The mutable session state of ImageProcessor: the current buffer and
the undo history (the registry and catalog are fixed at startup). -/
structure ImageProcessor where
  image_array : PixelBuffer
  history : FilterHistory

/-- Outcome reported by apply_crop: success, or the InvalidRegion failure
(the messages Invalid coordinates. and Invalid rectangle.). -/
inductive CropStatus where
  | ok
  | invalidRegion
deriving DecidableEq

/-- apply_crop: validate, then slice and push the pre-image; on failure the
state is untouched and the unchanged buffer is what gets displayed. -/
def apply_crop (left top right bottom : ℤ) (s : ImageProcessor) :
    CropStatus × ImageProcessor :=
  if left < 0 ∨ top < 0 ∨ right > (s.image_array.width : ℤ) ∨
      bottom > (s.image_array.height : ℤ) then
    (CropStatus.invalidRegion, s)
  else if left ≥ right ∨ top ≥ bottom then
    (CropStatus.invalidRegion, s)
  else
    (CropStatus.ok,
      { image_array := cropBuf left top right bottom s.image_array,
        history := s.history.push s.image_array })

/-- The five registered transforms; crop carries its coordinates and
rotate its angle, as supplied by the input source. -/
inductive Transform where
  | grayscale
  | inversion
  | blur
  | crop (left top right bottom : ℤ)
  | rotate (angle : ℚ)

/-- One transform step on the session state.  rot is the external PIL
resampling primitive (outside the core, spec section 4.4): the core
pushes the pre-image snapshot and adopts the result.  Every transform
that succeeds pushes exactly one snapshot before installing its result. -/
def applyTransform (rot : PixelBuffer → ℚ → PixelBuffer) :
    Transform → ImageProcessor → ImageProcessor
  | Transform.grayscale, s =>
      { image_array := grayscale s.image_array,
        history := s.history.push s.image_array }
  | Transform.inversion, s =>
      { image_array := inversion s.image_array,
        history := s.history.push s.image_array }
  | Transform.blur, s =>
      { image_array := apply_blur s.image_array,
        history := s.history.push s.image_array }
  | Transform.crop l t r b, s => (apply_crop l t r b s).2
  | Transform.rotate a, s =>
      { image_array := rot s.image_array a,
        history := s.history.push s.image_array }

/-- The crop validation, stated positively. -/
def cropValid (left top right bottom : ℤ) (B : PixelBuffer) : Prop :=
  0 ≤ left ∧ 0 ≤ top ∧ right ≤ (B.width : ℤ) ∧ bottom ≤ (B.height : ℤ) ∧
    left < right ∧ top < bottom

/-- A transform succeeds unless it is a crop with invalid coordinates. -/
def succeeds : Transform → ImageProcessor → Prop
  | Transform.crop l t r b, s => cropValid l t r b s.image_array
  | _, _ => True

/-- undo: pop the most recent snapshot and restore it; with an empty
history the state is unchanged (Nothing to undo.). -/
def undo (s : ImageProcessor) : ImageProcessor :=
  match s.history with
  | [] => s
  | b :: rest => { image_array := b, history := rest }

/-- The interactive loop: a sequence of transform steps. -/
def runTransforms (rot : PixelBuffer → ℚ → PixelBuffer) :
    List Transform → ImageProcessor → ImageProcessor
  | [], s => s
  | t :: ts, s => runTransforms rot ts (applyTransform rot t s)

/-- Every transform in the sequence succeeds in the state it is applied
to. -/
def allSucceed (rot : PixelBuffer → ℚ → PixelBuffer) :
    List Transform → ImageProcessor → Prop
  | [], _ => True
  | t :: ts, s => succeeds t s ∧ allSucceed rot ts (applyTransform rot t s)

/-- q is the value of one 8-bit unsigned sample. -/
def byteSample (q : ℚ) : Prop := ∃ n : ℕ, n < 256 ∧ q = (n : ℚ)

/-- All in-range samples of the buffer are 8-bit unsigned values. -/
def byteSamples (B : PixelBuffer) : Prop :=
  ∀ i j, i < B.height → j < B.width → ∀ c : Fin 3, byteSample (B.data i j c)

/-- The buffer data flattened row-major, as the underlying storage. -/
def flatData (B : PixelBuffer) : List ℚ :=
  (((List.range B.height).map fun i =>
    (((List.range B.width).map fun j =>
      (List.finRange 3).map fun c => B.data i j c)).flatten)).flatten

/-- Modelled from the spec (refinement side): edge replication reads the
clamped source index clamp(i - pad, 0, n - 1) on an axis of length n. -/
def specPadIdx (p n i : ℕ) : ℕ :=
  (min ((n : ℤ) - 1) (max 0 ((i : ℤ) - (p : ℤ)))).toNat

/-- Modelled from the spec (refinement side): out[i, j, c] is the kernel
window sum over the padded input, accumulated exactly and converted to
8 bits by simple cast without clamping. -/
def specConvOut (B : PixelBuffer) (k : Kernel) (i j : ℕ) (c : Fin 3) : ℕ :=
  castU8 (Finset.sum (Finset.range k.rows) fun di =>
    Finset.sum (Finset.range k.cols) fun dj =>
      B.data (specPadIdx (k.rows / 2) B.height (i + di))
        (specPadIdx (k.cols / 2) B.width (j + dj)) c * k.w di dj)

/-- Pointwise scaling of every sample of a buffer. -/
def scaleBuf (q : ℚ) (B : PixelBuffer) : PixelBuffer :=
  { height := B.height, width := B.width, dtype := B.dtype,
    data := fun i j c => q * B.data i j c }

mutual
/-- NaryTreeNode: a named node with an ordered list of children. -/
inductive NaryTreeNode where
  | node (name : String) (children : NaryForest)
/-- The children lists of NaryTreeNode, as a mutual inductive. -/
inductive NaryForest where
  | nil
  | cons (hd : NaryTreeNode) (tl : NaryForest)
end

/-- NaryTreeNode.add_child: self.children.append(child_node). -/
def NaryForest.append1 : NaryForest → NaryTreeNode → NaryForest
  | NaryForest.nil, c => NaryForest.cons c NaryForest.nil
  | NaryForest.cons hd tl, c => NaryForest.cons hd (tl.append1 c)

mutual
/-- NaryTree._find_node: depth-first search, the node itself first, then
the children in order; the first match wins. -/
def find_node : NaryTreeNode → String → Option NaryTreeNode
  | NaryTreeNode.node n cs, target =>
      if n = target then some (NaryTreeNode.node n cs)
      else find_forest cs target
/-- The forest part of find_node, left to right. -/
def find_forest : NaryForest → String → Option NaryTreeNode
  | NaryForest.nil, _ => none
  | NaryForest.cons hd tl, target =>
      match find_node hd target with
      | some found => some found
      | none => find_forest tl target
end

mutual
/-- NaryTree.add_filter restricted to a subtree: append the new leaf child
at the first DFS node named parent; the flag reports whether the parent
was found there. -/
def add_filter_node : NaryTreeNode → String → String → NaryTreeNode × Bool
  | NaryTreeNode.node n cs, parent, child =>
      if n = parent then
        (NaryTreeNode.node n
          (cs.append1 (NaryTreeNode.node child NaryForest.nil)), true)
      else
        match add_filter_forest cs parent child with
        | (cs2, found) => (NaryTreeNode.node n cs2, found)
/-- The forest part of add_filter_node. -/
def add_filter_forest : NaryForest → String → String → NaryForest × Bool
  | NaryForest.nil, _, _ => (NaryForest.nil, false)
  | NaryForest.cons hd tl, parent, child =>
      match add_filter_node hd parent child with
      | (hd2, true) => (NaryForest.cons hd2 tl, true)
      | (hd2, false) =>
          match add_filter_forest tl parent child with
          | (tl2, found) => (NaryForest.cons hd2 tl2, found)
end

/-- NaryTree.add_filter: if _find_node finds the parent, a new leaf child
is appended to it; otherwise the tree is returned unchanged, with no
error signalled (the if parent_node guard). -/
def add_filter (t : NaryTreeNode) (parent child : String) : NaryTreeNode :=
  (add_filter_node t parent child).1

/-- _build_tree applied to the root node named Filters. -/
def builtTree : NaryTreeNode :=
  add_filter (add_filter (add_filter (add_filter (add_filter (add_filter
    (add_filter (add_filter (NaryTreeNode.node "Filters" NaryForest.nil)
      "Filters" "Color Filters")
      "Color Filters" "Grayscale")
      "Color Filters" "Inversion")
      "Filters" "Effects")
      "Effects" "Blur")
      "Filters" "Transformations")
      "Transformations" "Crop")
      "Transformations" "Rotate"

mutual
/-- The DFS path of names from the root to the first node named target. -/
def pathTo : NaryTreeNode → String → Option (List String)
  | NaryTreeNode.node n cs, target =>
      if n = target then some [n]
      else Option.map (fun p => n :: p) (pathForest cs target)
/-- The forest part of pathTo. -/
def pathForest : NaryForest → String → Option (List String)
  | NaryForest.nil, _ => none
  | NaryForest.cons hd tl, target =>
      match pathTo hd target with
      | some p => some p
      | none => pathForest tl target
end

/-- Property of a tree node: add_filter_node with a parent name that
find_node does not find is the identity, reporting false. -/
def MissP1 (t : NaryTreeNode) : Prop :=
  ∀ p c, find_node t p = none → add_filter_node t p c = (t, false)

/-- The forest counterpart of MissP1. -/
def MissP2 (f : NaryForest) : Prop :=
  ∀ p c, find_forest f p = none → add_filter_forest f p c = (f, false)

/-- A concrete 1 x 1 uint8 buffer with all samples 7. -/
def sampleBuf : PixelBuffer :=
  { height := 1, width := 1, dtype := Dtype.u8, data := fun _ _ _ => 7 }

/-- A concrete 1 x 1 uint8 buffer with all samples 100. -/
def bufGray100 : PixelBuffer :=
  { height := 1, width := 1, dtype := Dtype.u8, data := fun _ _ _ => 100 }

/-- A concrete 2 x 2 uint8 buffer with all samples 3. -/
def sampleBuf2 : PixelBuffer :=
  { height := 2, width := 2, dtype := Dtype.u8, data := fun _ _ _ => 3 }

/-- A fresh session on sampleBuf. -/
def procState0 : ImageProcessor := { image_array := sampleBuf, history := [] }

/-- A fresh session on sampleBuf2. -/
def procState2 : ImageProcessor := { image_array := sampleBuf2, history := [] }

/-- A trivial stand-in for the external rotation primitive. -/
def idRotate : PixelBuffer → ℚ → PixelBuffer := fun b _ => b

/-- The if-chain of padIdx agrees with the clamp formulation. -/
theorem padIdx_eq_specPadIdx (p n i : ℕ) (hn : 0 < n) :
    padIdx p n i = specPadIdx p n i := by
  unfold padIdx specPadIdx
  split_ifs <;> omega

/-- Cropping the full rectangle returns the buffer itself. -/
theorem cropBuf_full (B : PixelBuffer) :
    cropBuf 0 0 (B.width : ℤ) (B.height : ℤ) B = B := by
  obtain ⟨hh, ww, d, f⟩ := B
  unfold cropBuf
  simp only [sub_zero, Int.toNat_natCast, Int.toNat_zero, zero_add]

/-- Any successful transform pushes exactly the pre-image snapshot. -/
theorem applyTransform_history (rot : PixelBuffer → ℚ → PixelBuffer)
    (t : Transform) (s : ImageProcessor) (h : succeeds t s) :
    (applyTransform rot t s).history = s.image_array :: s.history := by
  cases t with
  | grayscale => rfl
  | inversion => rfl
  | blur => rfl
  | rotate a => rfl
  | crop l t r b =>
      obtain ⟨h1, h2, h3, h4, h5, h6⟩ := h
      show ((apply_crop l t r b s).2).history = _
      unfold apply_crop
      split_ifs with hA hB
      · exfalso
        rcases hA with hA | hA | hA | hA <;> omega
      · exfalso
        rcases hB with hB | hB <;> omega
      · rfl

/-- undo always shortens the history by one (to zero when empty). -/
theorem undo_history_length (s : ImageProcessor) :
    (undo s).history.length = s.history.length - 1 := by
  obtain ⟨img, hist⟩ := s
  cases hist <;> rfl

/-- A run of successful transforms grows the history by its length. -/
theorem runTransforms_history_length (rot : PixelBuffer → ℚ → PixelBuffer)
    (ts : List Transform) :
    ∀ s : ImageProcessor, allSucceed rot ts s →
      (runTransforms rot ts s).history.length =
        ts.length + s.history.length := by
  induction ts with
  | nil => intro s _; simp [runTransforms]
  | cons t ts ih =>
      intro s h
      obtain ⟨h1, h2⟩ := h
      have hrec := ih (applyTransform rot t s) h2
      calc (runTransforms rot (t :: ts) s).history.length
          = (runTransforms rot ts (applyTransform rot t s)).history.length :=
            rfl
        _ = ts.length + (applyTransform rot t s).history.length := hrec
        _ = ts.length + (s.image_array :: s.history).length := by
            rw [applyTransform_history rot t s h1]
        _ = (t :: ts).length + s.history.length := by
            simp only [List.length_cons]
            omega

/-- Flattening a list of lists of equal length k. -/
theorem flatten_length_const (L : List (List ℚ)) (k : ℕ)
    (h : ∀ x ∈ L, x.length = k) : L.flatten.length = L.length * k := by
  induction L with
  | nil => simp
  | cons x xs ih =>
      have hx : x.length = k := h x (List.mem_cons_self x xs)
      have hxs : ∀ y ∈ xs, y.length = k := fun y hy =>
        h y (List.mem_cons_of_mem x hy)
      simp only [List.flatten_cons, List.length_append, List.length_cons,
        ih hxs, hx]
      ring

/-- The flattened storage of any buffer has length height * width * 3. -/
theorem flatData_length (B : PixelBuffer) :
    (flatData B).length = B.height * B.width * 3 := by
  unfold flatData
  rw [flatten_length_const _ (B.width * 3), List.length_map,
    List.length_range]
  · ring
  · intro x hx
    obtain ⟨i, hi, rfl⟩ := List.mem_map.mp hx
    rw [flatten_length_const _ 3, List.length_map, List.length_range]
    intro y hy
    obtain ⟨j, hj, rfl⟩ := List.mem_map.mp hy
    simp

/-- Fuses MissP1 over all nodes and MissP2 over all forests. -/
theorem missP_all : ∀ t : NaryTreeNode, MissP1 t := by
  have hnode : ∀ (n : String) (cs : NaryForest),
      MissP2 cs → MissP1 (NaryTreeNode.node n cs) := by
    intro n cs hcs p c h
    unfold find_node at h
    by_cases hn : n = p
    · rw [if_pos hn] at h
      exact absurd h (by simp)
    · rw [if_neg hn] at h
      unfold add_filter_node
      rw [if_neg hn, hcs p c h]
  have hnil : MissP2 NaryForest.nil := by
    intro p c _
    rfl
  have hcons : ∀ (hd : NaryTreeNode) (tl : NaryForest),
      MissP1 hd → MissP2 tl → MissP2 (NaryForest.cons hd tl) := by
    intro hd tl hhd htl p c h
    unfold find_forest at h
    cases hfn : find_node hd p with
    | some v =>
        rw [hfn] at h
        exact absurd h (by simp)
    | none =>
        rw [hfn] at h
        have h2 : find_forest tl p = none := h
        unfold add_filter_forest
        rw [hhd p c hfn, htl p c h2]
  exact fun t => @NaryTreeNode.rec MissP1 MissP2 hnode hnil hcons t

/-- Claim C1: for every transform (grayscale, inversion, blur, crop,
rotate) and every current buffer, if applying the transform succeeds then
a subsequent undo restores the current buffer exactly, byte for byte. -/
theorem undo_after_transform (rot : PixelBuffer → ℚ → PixelBuffer)
    (t : Transform) (s : ImageProcessor) (h : succeeds t s) :
    (undo (applyTransform rot t s)).image_array = s.image_array := by
  have hp := applyTransform_history rot t s h
  rcases hE : applyTransform rot t s with ⟨img2, hist2⟩
  rw [hE] at hp
  simp only at hp
  rw [hp]
  rfl

/-- Witness for Claim C1 at a concrete state. -/
theorem undo_after_transform_w :
    succeeds Transform.grayscale procState0 ∧
    (undo (applyTransform idRotate Transform.grayscale
      procState0)).image_array = procState0.image_array :=
  ⟨trivial, undo_after_transform idRotate Transform.grayscale procState0
    trivial⟩

/-- Claim C2: for any 8-bit buffer and any kernel with odd rows and
columns, the convolution preserves the dimensions, and every output
sample equals the kernel window sum over the input padded by rows over 2
and cols over 2 with edge replication, accumulated exactly and converted
to 8 bits by simple cast without clamping. -/
theorem apply_filter_matches_spec (B : PixelBuffer) (k : Kernel)
    (hd : B.dtype = Dtype.u8) (hh : 0 < B.height) (hw : 0 < B.width)
    (_hr : Odd k.rows) (_hc : Odd k.cols) :
    (apply_filter k B).height = B.height ∧
    (apply_filter k B).width = B.width ∧
    ∀ i j, i < B.height → j < B.width → ∀ c : Fin 3,
      (apply_filter k B).data i j c = (specConvOut B k i j c : ℚ) := by
  refine ⟨rfl, rfl, ?_⟩
  intro i j _ _ c
  show store B.dtype (convSum B k i j c) = _
  rw [hd]
  show (castU8 (convSum B k i j c) : ℚ) = (specConvOut B k i j c : ℚ)
  unfold specConvOut
  congr 2
  unfold convSum
  refine Finset.sum_congr rfl ?_
  intro di _
  refine Finset.sum_congr rfl ?_
  intro dj _
  unfold paddedAt
  rw [padIdx_eq_specPadIdx _ _ _ hh, padIdx_eq_specPadIdx _ _ _ hw]

/-- Witness for Claim C2 at a concrete buffer and the box kernel. -/
theorem apply_filter_matches_spec_w :
    sampleBuf.dtype = Dtype.u8 ∧ 0 < sampleBuf.height ∧ Odd boxKernel.rows ∧
    (apply_filter boxKernel sampleBuf).data 0 0 0 =
      (specConvOut sampleBuf boxKernel 0 0 0 : ℚ) :=
  ⟨rfl, by decide, ⟨1, by decide⟩,
    (apply_filter_matches_spec sampleBuf boxKernel rfl (by decide)
      (by decide) ⟨1, by decide⟩ ⟨1, by decide⟩).2.2 0 0 (by decide)
      (by decide) 0⟩

/-- Claim C3: crop with out-of-bounds or degenerate coordinates reports
the InvalidRegion failure and leaves both the current buffer and the
undo history unchanged. -/
theorem apply_crop_invalid (l t r b : ℤ) (s : ImageProcessor)
    (h : l < 0 ∨ t < 0 ∨ r > (s.image_array.width : ℤ) ∨
      b > (s.image_array.height : ℤ) ∨ l ≥ r ∨ t ≥ b) :
    (apply_crop l t r b s).1 = CropStatus.invalidRegion ∧
    (apply_crop l t r b s).2.image_array = s.image_array ∧
    (apply_crop l t r b s).2.history = s.history := by
  unfold apply_crop
  split_ifs with hA hB
  · exact ⟨rfl, rfl, rfl⟩
  · exact ⟨rfl, rfl, rfl⟩
  · exfalso
    push_neg at hA hB
    obtain ⟨a1, a2, a3, a4⟩ := hA
    obtain ⟨b1, b2⟩ := hB
    rcases h with h | h | h | h | h | h <;> omega

/-- Witness for Claim C3: the degenerate crop 5 5 3 3 on a 2 x 2 image. -/
theorem apply_crop_invalid_w :
    ((5 : ℤ) < 0 ∨ (5 : ℤ) < 0 ∨
      (3 : ℤ) > (procState2.image_array.width : ℤ) ∨
      (3 : ℤ) > (procState2.image_array.height : ℤ) ∨
      (5 : ℤ) ≥ 3 ∨ (5 : ℤ) ≥ 3) ∧
    (apply_crop 5 5 3 3 procState2).1 = CropStatus.invalidRegion ∧
    (apply_crop 5 5 3 3 procState2).2.image_array =
      procState2.image_array ∧
    (apply_crop 5 5 3 3 procState2).2.history = procState2.history := by
  have hy : (5 : ℤ) < 0 ∨ (5 : ℤ) < 0 ∨
      (3 : ℤ) > (procState2.image_array.width : ℤ) ∨
      (3 : ℤ) > (procState2.image_array.height : ℤ) ∨
      (5 : ℤ) ≥ 3 ∨ (5 : ℤ) ≥ 3 := by decide
  exact ⟨hy, apply_crop_invalid 5 5 3 3 procState2 hy⟩

/-- Claim C4: a valid crop succeeds with the sub-rectangle from top to
bottom and left to right, of dimensions bottom minus top by right minus
left; the full-frame crop returns the buffer unchanged. -/
theorem apply_crop_success (l t r b : ℤ) (s : ImageProcessor)
    (h1 : 0 ≤ l) (h2 : 0 ≤ t) (h3 : r ≤ (s.image_array.width : ℤ))
    (h4 : b ≤ (s.image_array.height : ℤ)) (h5 : l < r) (h6 : t < b) :
    (apply_crop l t r b s).1 = CropStatus.ok ∧
    (apply_crop l t r b s).2.image_array.height = (b - t).toNat ∧
    (apply_crop l t r b s).2.image_array.width = (r - l).toNat ∧
    (∀ i j c, (apply_crop l t r b s).2.image_array.data i j c =
      s.image_array.data (t.toNat + i) (l.toNat + j) c) ∧
    (l = 0 → t = 0 → r = (s.image_array.width : ℤ) →
      b = (s.image_array.height : ℤ) →
      (apply_crop l t r b s).2.image_array = s.image_array) := by
  have hA : ¬(l < 0 ∨ t < 0 ∨ r > (s.image_array.width : ℤ) ∨
      b > (s.image_array.height : ℤ)) := by
    push_neg
    exact ⟨h1, h2, h3, h4⟩
  have hB : ¬(l ≥ r ∨ t ≥ b) := by
    push_neg
    exact ⟨h5, h6⟩
  unfold apply_crop
  rw [if_neg hA, if_neg hB]
  refine ⟨rfl, rfl, rfl, fun i j c => rfl, ?_⟩
  intro e1 e2 e3 e4
  subst e1
  subst e2
  subst e3
  subst e4
  exact cropBuf_full s.image_array

/-- Witness for Claim C4: the full-frame crop of a 2 x 2 image. -/
theorem apply_crop_success_w :
    (0 : ℤ) ≤ 0 ∧ (0 : ℤ) < 2 ∧
    (apply_crop 0 0 2 2 procState2).1 = CropStatus.ok ∧
    (apply_crop 0 0 2 2 procState2).2.image_array =
      procState2.image_array := by
  have c1 : (0 : ℤ) ≤ 0 := le_refl 0
  have c3 : (2 : ℤ) ≤ (procState2.image_array.width : ℤ) := by decide
  have c4 : (2 : ℤ) ≤ (procState2.image_array.height : ℤ) := by decide
  have c5 : (0 : ℤ) < 2 := by decide
  have H := apply_crop_success 0 0 2 2 procState2 c1 c1 c3 c4 c5 c5
  exact ⟨c1, c5, H.1,
    H.2.2.2.2 rfl rfl (by decide) (by decide)⟩

/-- Counterexample for Claim C5: on an all-100 pixel, one grayscale stores
the float 99.99 and a second grayscale stores 99.99 multiplied by 0.9999,
because the luma weights sum to 0.9999 rather than 1; the two buffers
differ. -/
theorem grayscale_not_idempotent :
    grayscale (grayscale bufGray100) ≠ grayscale bufGray100 := by
  intro h
  have h2 := congrArg (fun B => B.data 0 0 0) h
  simp only [grayscale, grayAt, bufGray100] at h2
  norm_num at h2

/-- Claim C5 amended: grayscale is not idempotent; applying it twice
instead equals one grayscale followed by scaling every stored sample by
9999/10000, the exact sum of the luma weights.  The two agree only where
the gray value is zero. -/
theorem grayscale_twice_scales (B : PixelBuffer) :
    grayscale (grayscale B) = scaleBuf (9999 / 10000) (grayscale B) := by
  ext i j c
  · rfl
  · rfl
  · rfl
  · simp only [grayscale, grayAt, scaleBuf]
    ring

/-- Claim C6: inversion is self-inverse; on a buffer of 8-bit samples,
inverting twice returns exactly the original buffer. -/
theorem inversion_involutive (B : PixelBuffer) (_h : byteSamples B) :
    inversion (inversion B) = B := by
  ext i j c
  · rfl
  · rfl
  · rfl
  · simp only [inversion]
    ring

/-- Witness for Claim C6 at a concrete 8-bit buffer. -/
theorem inversion_involutive_w :
    byteSamples sampleBuf ∧ inversion (inversion sampleBuf) = sampleBuf := by
  have hb : byteSamples sampleBuf := by
    intro i j _ _ c
    exact ⟨7, by norm_num, by norm_num [sampleBuf]⟩
  exact ⟨hb, inversion_involutive sampleBuf hb⟩

/-- Counterexample for Claim C7: the all-100 buffer has 8-bit samples, but
after grayscale the stored samples equal 99.99, which is not an 8-bit
unsigned value — np.dot stores float64 values and no uint8 cast is
applied to the kept buffer. -/
theorem grayscale_breaks_byte_samples :
    byteSamples bufGray100 ∧ ¬ byteSamples (grayscale bufGray100) := by
  constructor
  · intro i j _ _ c
    exact ⟨100, by norm_num, by norm_num [bufGray100]⟩
  · intro hby
    have h0 : (0 : ℕ) < (grayscale bufGray100).height := by decide
    have h1 : (0 : ℕ) < (grayscale bufGray100).width := by decide
    obtain ⟨n, hn, he⟩ := hby 0 0 h0 h1 0
    have hv : (grayscale bufGray100).data 0 0 0 = 9999 / 100 := by
      norm_num [grayscale, grayAt, bufGray100]
    rw [hv] at he
    have hq : (n : ℚ) * 100 = 9999 := by
      rw [← he]
      norm_num
    have hnat : n * 100 = 9999 := by exact_mod_cast hq
    omega

/-- Claim C7 amended: every in-core transform preserves the height by
width by 3 shape, with flattened data length height times width times 3
(crop with its new dimensions); inversion, convolution on a uint8 buffer,
and crop keep 8-bit samples, but grayscale stores float values that need
not be 8-bit (rotation is delegated to the external resampler). -/
theorem transforms_preserve_shape (B : PixelBuffer) (k : Kernel)
    (l t r b : ℤ) (hd : B.dtype = Dtype.u8) (hb : byteSamples B)
    (h1 : 0 ≤ l) (h2 : 0 ≤ t) (h3 : r ≤ (B.width : ℤ))
    (h4 : b ≤ (B.height : ℤ)) (h5 : l < r) (h6 : t < b) :
    ((grayscale B).height = B.height ∧ (grayscale B).width = B.width ∧
      (flatData (grayscale B)).length = B.height * B.width * 3) ∧
    ((inversion B).height = B.height ∧ (inversion B).width = B.width ∧
      (flatData (inversion B)).length = B.height * B.width * 3) ∧
    ((apply_filter k B).height = B.height ∧
      (apply_filter k B).width = B.width ∧
      (flatData (apply_filter k B)).length = B.height * B.width * 3) ∧
    ((cropBuf l t r b B).height = (b - t).toNat ∧
      (cropBuf l t r b B).width = (r - l).toNat ∧
      (flatData (cropBuf l t r b B)).length =
        (b - t).toNat * (r - l).toNat * 3) ∧
    byteSamples (inversion B) ∧ byteSamples (apply_filter k B) ∧
    byteSamples (cropBuf l t r b B) := by
  refine ⟨⟨rfl, rfl, flatData_length _⟩, ⟨rfl, rfl, flatData_length _⟩,
    ⟨rfl, rfl, flatData_length _⟩, ⟨rfl, rfl, flatData_length _⟩,
    ?_, ?_, ?_⟩
  · intro i j hi hj c
    obtain ⟨n, hn, he⟩ := hb i j hi hj c
    refine ⟨255 - n, by omega, ?_⟩
    show 255 - B.data i j c = ((255 - n : ℕ) : ℚ)
    rw [he]
    have hn255 : n ≤ 255 := by omega
    push_cast [Nat.cast_sub hn255]
    ring
  · intro i j _ _ c
    refine ⟨castU8 (convSum B k i j c), Nat.mod_lt _ (by norm_num), ?_⟩
    show store B.dtype (convSum B k i j c) = _
    rw [hd]
    rfl
  · intro i j hi hj c
    have hi2 : t.toNat + i < B.height := by
      have : i < (b - t).toNat := hi
      omega
    have hj2 : l.toNat + j < B.width := by
      have : j < (r - l).toNat := hj
      omega
    exact hb _ _ hi2 hj2 c

/-- Witness for Claim C7 amended, at a concrete buffer and kernel. -/
theorem transforms_preserve_shape_w :
    bufGray100.dtype = Dtype.u8 ∧ byteSamples bufGray100 ∧
    byteSamples (inversion bufGray100) := by
  have hb : byteSamples bufGray100 := by
    intro i j _ _ c
    exact ⟨100, by norm_num, by norm_num [bufGray100]⟩
  have H := transforms_preserve_shape bufGray100 boxKernel 0 0 1 1 rfl hb
    (by decide) (by decide) (by decide) (by decide) (by decide) (by decide)
  exact ⟨rfl, hb, H.2.2.2.2.1⟩

/-- Claim C8: starting from a fresh session, N successful transforms
leave exactly N snapshots in the history, a subsequent undo leaves
N minus 1, and every successful transform pushes exactly one pre-image
snapshot. -/
theorem history_depth (rot : PixelBuffer → ℚ → PixelBuffer)
    (ts : List Transform) (s : ImageProcessor)
    (h0 : s.history = []) (hs : allSucceed rot ts s) :
    (runTransforms rot ts s).history.length = ts.length ∧
    (undo (runTransforms rot ts s)).history.length = ts.length - 1 ∧
    (∀ (t : Transform) (s2 : ImageProcessor), succeeds t s2 →
      (applyTransform rot t s2).history = s2.image_array :: s2.history) := by
  have hlen := runTransforms_history_length rot ts s hs
  rw [h0] at hlen
  simp only [List.length_nil, Nat.add_zero] at hlen
  refine ⟨hlen, ?_, fun t s2 h => applyTransform_history rot t s2 h⟩
  rw [undo_history_length, hlen]

/-- Witness for Claim C8: two successful transforms, then undo. -/
theorem history_depth_w :
    procState0.history = [] ∧
    allSucceed idRotate [Transform.grayscale, Transform.inversion]
      procState0 ∧
    (runTransforms idRotate [Transform.grayscale, Transform.inversion]
      procState0).history.length = 2 ∧
    (undo (runTransforms idRotate
      [Transform.grayscale, Transform.inversion]
      procState0)).history.length = 1 := by
  have hall : allSucceed idRotate
      [Transform.grayscale, Transform.inversion] procState0 :=
    ⟨trivial, trivial, trivial⟩
  have H := history_depth idRotate
    [Transform.grayscale, Transform.inversion] procState0 rfl hall
  exact ⟨rfl, hall, H.1, H.2.1⟩

/-- Claim C9: in the catalog tree built at startup, the depth-first search
for Grayscale returns the leaf node whose path of names from the root is
Filters, Color Filters, Grayscale; DFS visits the node itself first and
the first match wins. -/
theorem catalog_grayscale_path :
    find_node builtTree "Grayscale" =
      some (NaryTreeNode.node "Grayscale" NaryForest.nil) ∧
    pathTo builtTree "Grayscale" =
      some ["Filters", "Color Filters", "Grayscale"] :=
  ⟨rfl, rfl⟩

/-- Claim C10: add_filter with a parent name that matches no node is a
silent no-op: no error is signalled and the tree is returned unchanged. -/
theorem add_filter_unknown_parent (t : NaryTreeNode) (p c : String)
    (h : find_node t p = none) : add_filter t p c = t := by
  unfold add_filter
  rw [missP_all t p c h]

/-- Witness for Claim C10: a parent name absent from the root-only tree. -/
theorem add_filter_unknown_parent_w :
    find_node (NaryTreeNode.node "Filters" NaryForest.nil) "Missing" =
      none ∧
    add_filter (NaryTreeNode.node "Filters" NaryForest.nil) "Missing"
      "X" = NaryTreeNode.node "Filters" NaryForest.nil := by
  have h : find_node (NaryTreeNode.node "Filters" NaryForest.nil)
      "Missing" = none := rfl
  exact ⟨h, add_filter_unknown_parent
    (NaryTreeNode.node "Filters" NaryForest.nil) "Missing" "X" h⟩

end ImageProc
